import Mathlib

/-!
Verification of the persona-driven PDF section retrieval pipeline.

This file gives a shallow embedding of the core pipeline code:
heading detection (`1A.py`), section content extraction
(`section_extractor.py`), relevance scoring (`relevance_scorer.py`)
and section ranking / deduplication / balancing (`section_ranker.py`).

Python floats are modelled as rationals (all float literals in the
code are simple decimal constants used as thresholds and weights, and
the comparisons they take part in are never within rounding distance
of the integer data being compared).  Python strings are modelled as
`String` / `List Char` over the ASCII fragment; Python `re` uses of
the code are translated pattern by pattern to explicit character-list
scanners with the same matching semantics.
-/

set_option maxRecDepth 100000

namespace Round1B

/-! ## Character classes (Python `\w`, `\s`, `\d`, ASCII letter cases) -/

/-- Python regex `\s`: space, tab, newline, carriage return, vertical tab, form feed. -/
def pySpace (c : Char) : Bool :=
  c = ' ' || c = '\t' || c = '\n' || c = '\r' || c = '\x0b' || c = '\x0c'

/-- Python regex `\w` (ASCII fragment): letters, digits, underscore. -/
def isWordChar (c : Char) : Bool :=
  c.isAlpha || c.isDigit || c = '_'

/-- ASCII uppercase letter, the regex class `[A-Z]`. -/
def isUpperAZ (c : Char) : Bool :=
  'A' ≤ c && c ≤ 'Z'

/-- ASCII lowercase letter, the regex class `[a-z]`. -/
def isLowerAZ (c : Char) : Bool :=
  'a' ≤ c && c ≤ 'z'

/-! ## Basic string operations on `List Char` -/

/-- Lowercase every character (Python `str.lower`, ASCII fragment). -/
def lowerL (l : List Char) : List Char :=
  l.map Char.toLower

/-- Python `str.strip()`: drop leading and trailing whitespace. -/
def stripL (l : List Char) : List Char :=
  ((l.dropWhile pySpace).reverse.dropWhile pySpace).reverse

/-- Worker for `splitRuns`: `sep` records whether the previous character was a
separator (so that a run of separators produces a single split). -/
def splitRunsGo (p : Char → Bool) : Bool → List Char → List Char → List (List Char)
  | _, acc, [] => [acc.reverse]
  | sep, acc, c :: rest =>
    if p c then
      if sep then splitRunsGo p true [] rest
      else acc.reverse :: splitRunsGo p true [] rest
    else splitRunsGo p false (c :: acc) rest

/-- Python `re.split` on a pattern `[X]+`: split on maximal runs of characters
satisfying `p`; empty pieces are kept at the boundaries (as `re.split` does). -/
def splitRuns (p : Char → Bool) (l : List Char) : List (List Char) :=
  splitRunsGo p false [] l

/-- Python `str.split()` with no argument: whitespace-separated words,
empty pieces dropped. -/
def pySplit (l : List Char) : List (List Char) :=
  (splitRuns pySpace l).filter (fun w => w ≠ [])

/-- Python `re.findall(r'\w+', s)`: the maximal runs of word characters. -/
def wordRuns (l : List Char) : List (List Char) :=
  (splitRuns (fun c => !isWordChar c) l).filter (fun w => w ≠ [])

/-- Python substring test `pat in s` (`True` for the empty pattern). -/
def containsSub (s pat : List Char) : Bool :=
  s.tails.any (fun t => pat.isPrefixOf t)

/-- Worker for `countOcc`, with fuel bounding the number of scan steps. -/
def countOccGo (pat : List Char) : Nat → List Char → Nat
  | 0, _ => 0
  | fuel + 1, s =>
    if pat.isPrefixOf s then 1 + countOccGo pat fuel (s.drop pat.length)
    else
      match s with
      | [] => 0
      | _ :: t => countOccGo pat fuel t

/-- Python `str.count`: number of non-overlapping occurrences of `pat` in `s`
scanning from the left; `s.count('') = len(s) + 1`. -/
def countOcc (s pat : List Char) : Nat :=
  if pat = [] then s.length + 1 else countOccGo pat s.length s

/-- First index of substring `pat` in `s` (Python `str.find`, as an `Option`). -/
def findSub (pat : List Char) : List Char → Nat → Option Nat
  | s, i =>
    if pat.isPrefixOf s then some i
    else
      match s with
      | [] => none
      | _ :: t => findSub pat t (i + 1)

/-- Python `str.isupper()` (ASCII fragment): at least one letter and no
lowercase letter. -/
def pyIsUpper (l : List Char) : Bool :=
  l.any Char.isAlpha && !(l.any Char.isLower)

/-! ## Word-run scanners

A pattern of the shape `\b(w1|w2|...)\b...` matches in a string exactly when
some maximal run of word characters satisfies the alternation and the
characters following the run satisfy the rest of the pattern (a maximal run
always has word boundaries at both ends, and no boundary inside).  The
scanners below walk the maximal word runs of a string. -/

/-- Worker for `anyWordRun`, with fuel bounding the scan steps. -/
def anyWordRunGo (runP : List Char → Bool) (okAfter : List Char → Bool) :
    Nat → List Char → Bool
  | 0, _ => false
  | _ + 1, [] => false
  | fuel + 1, c :: rest =>
    if isWordChar c then
      let run := c :: rest.takeWhile isWordChar
      let after := rest.dropWhile isWordChar
      (runP run && okAfter after) || anyWordRunGo runP okAfter fuel after
    else anyWordRunGo runP okAfter fuel rest

/-- `re.search(r'\b(...)\b REST', s)` style test: some maximal word run
satisfies `runP` and the text after it satisfies `okAfter`. -/
def anyWordRun (runP : List Char → Bool) (okAfter : List Char → Bool)
    (l : List Char) : Bool :=
  anyWordRunGo runP okAfter l.length l

/-- Worker for `countWordRuns`, with fuel bounding the scan steps. -/
def countWordRunsGo (runP : List Char → Bool) : Nat → List Char → Nat
  | 0, _ => 0
  | _ + 1, [] => 0
  | fuel + 1, c :: rest =>
    if isWordChar c then
      let run := c :: rest.takeWhile isWordChar
      let after := rest.dropWhile isWordChar
      (if runP run then 1 else 0) + countWordRunsGo runP fuel after
    else countWordRunsGo runP fuel rest

/-- `len(re.findall(r'\b(w1|w2|...)\b', s))`: number of maximal word runs
satisfying `runP`. -/
def countWordRuns (runP : List Char → Bool) (l : List Char) : Nat :=
  countWordRunsGo runP l.length l

/-- After-run check for `\s+\w`-style continuations: at least one whitespace
character, then a character satisfying `p`. -/
def spaceThen (p : Char → Bool) (l : List Char) : Bool :=
  match l with
  | [] => false
  | c :: _ =>
    pySpace c &&
      match l.dropWhile pySpace with
      | [] => false
      | d :: _ => p d

/-! ## The text-cleaning regex substitutions of `_clean_extracted_text`

Each Python `re.sub` call is translated to a left-to-right scanner: at every
position it either recognises a (deterministically longest-by-priority) match
of the pattern, emits the replacement and resumes after the match, or copies
one character.  Fuel (the length of the string) bounds the number of steps;
every step consumes at least one character. -/

/-- Collapse every maximal whitespace run to a single space
(`re.sub(r'\s+', ' ', text)`).  The flag records whether the previous
character was whitespace. -/
def collapseWSGo : Bool → List Char → List Char
  | _, [] => []
  | inRun, c :: rest =>
    if pySpace c then
      if inRun then collapseWSGo true rest
      else ' ' :: collapseWSGo true rest
    else c :: collapseWSGo false rest

/-- `re.sub(r'\s+', ' ', text)`. -/
def collapseWS (l : List Char) : List Char :=
  collapseWSGo false l

/-- Index of the last `'\n'` in a list, if any. -/
def lastNewlineIdx : List Char → Option Nat
  | [] => none
  | c :: t =>
    match lastNewlineIdx t with
    | some i => some (i + 1)
    | none => if c = '\n' then some 0 else none

/-- Length of a match of `\n\s*\d+\s*\n` at the head of `l` (the trailing
`\s*\n` takes the whitespace up to the last newline of the following
whitespace run, which is where greedy matching with backtracking ends). -/
def matchNumLine (l : List Char) : Option Nat :=
  match l with
  | '\n' :: r1 =>
    let ws1 := r1.takeWhile pySpace
    let r2 := r1.dropWhile pySpace
    let ds := r2.takeWhile Char.isDigit
    if ds = [] then none
    else
      let r3 := r2.drop ds.length
      let ws2 := r3.takeWhile pySpace
      match lastNewlineIdx ws2 with
      | some k => some (1 + ws1.length + ds.length + k + 1)
      | none => none
  | _ => none

/-- Length of a match of `\n\s*Page \d+.*?\n` (case-insensitive `Page`) at the
head of `l`; `.` does not cross newlines, so the lazy tail ends at the first
newline after the digits. -/
def matchPageLine (l : List Char) : Option Nat :=
  match l with
  | '\n' :: r1 =>
    let ws1 := r1.takeWhile pySpace
    let r2 := r1.dropWhile pySpace
    if lowerL (r2.take 5) = "page ".data then
      let r3 := r2.drop 5
      let ds := r3.takeWhile Char.isDigit
      if ds = [] then none
      else
        let r4 := r3.drop ds.length
        match r4.findIdx? (fun c => c = '\n') with
        | some k => some (1 + ws1.length + 5 + ds.length + k + 1)
        | none => none
    else none
  | _ => none

/-- The character class of the URL pattern
`(?:[a-zA-Z]|[0-9]|[$-_@.&+]|[!*\\(\\),]|(?:%[0-9a-fA-F][0-9a-fA-F]))`:
`[$-_]` is the byte range `0x24`–`0x5F` (which subsumes digits, uppercase
letters and most listed symbols), so the class is lowercase letters, the
range `0x24`–`0x5F`, and `'!'`. -/
def urlChar (c : Char) : Bool :=
  isLowerAZ c || ('$' ≤ c && c ≤ '_') || c = '!'

/-- Length of a match of the URL pattern `http[s]?://<urlChar>+` at the head
of `l`. -/
def matchURL (l : List Char) : Option Nat :=
  if "http".data.isPrefixOf l then
    let rest := l.drop 4
    let hdr :=
      if "s://".data.isPrefixOf rest then some 8
      else if "://".data.isPrefixOf rest then some 7
      else none
    match hdr with
    | some n =>
      let run := (l.drop n).takeWhile urlChar
      if run = [] then none else some (n + run.length)
    | none => none
  else none

/-- Length of a match of the email pattern `\S+@\S+\.\S+` at the head of `l`.
A match never crosses whitespace, so it lives inside the maximal non-space
run `R` at the head; it exists iff `R` has an `'@'` at some position `p ≥ 1`
and a `'.'` at some position `q` with `p + 2 ≤ q ≤ |R| - 2`, and the final
greedy `\S+` then extends the match to the end of `R`. -/
def matchEmail (l : List Char) : Option Nat :=
  match l with
  | [] => none
  | c :: _ =>
    if pySpace c then none
    else
      let r := l.takeWhile (fun d => !pySpace d)
      let ok := (List.range r.length).any (fun p =>
        decide (1 ≤ p) && r.getD p ' ' = '@' &&
          (List.range r.length).any (fun q =>
            decide (p + 2 ≤ q) && decide (q + 2 ≤ r.length) && r.getD q ' ' = '.'))
      if ok then some r.length else none

/-- Length of a match of `\n\s*\n` at the head of `l`. -/
def matchBlankLine (l : List Char) : Option Nat :=
  match l with
  | '\n' :: r1 =>
    let ws := r1.takeWhile pySpace
    match lastNewlineIdx ws with
    | some k => some (1 + k + 1)
    | none => none
  | _ => none

/-- Generic `re.sub` driver: at each position, if `m` recognises a match of
`n` characters, emit `repl` and continue after the match, else copy one
character.  `m` never returns `0` for the patterns above (each begins with a
mandatory character), so `max n 1` only guards totality. -/
def reSubGo (m : List Char → Option Nat) (repl : List Char) :
    Nat → List Char → List Char
  | 0, s => s
  | fuel + 1, s =>
    match m s with
    | some n => repl ++ reSubGo m repl fuel (s.drop (max n 1))
    | none =>
      match s with
      | [] => []
      | c :: t => c :: reSubGo m repl fuel t

/-- `re.sub` with matcher `m` and replacement `repl`. -/
def reSub (m : List Char → Option Nat) (repl : List Char) (s : List Char) :
    List Char :=
  reSubGo m repl s.length s

/-! ## `SectionExtractor._clean_extracted_text` -/

/-- `_clean_extracted_text`: collapse whitespace, strip bare page-number lines
and `Page N` lines, strip URLs and e-mail addresses, collapse blank lines,
strip. -/
def cleanExtractedText (s : String) : String :=
  let t1 := collapseWS s.data
  let t2 := reSub matchNumLine ['\n'] t1
  let t3 := reSub matchPageLine ['\n'] t2
  let t4 := reSub matchURL [] t3
  let t5 := reSub matchEmail [] t4
  let t6 := reSub matchBlankLine ['\n'] t5
  String.mk (stripL t6)

/-! ## Data model: headings and sections -/

/-- An outline heading as consumed by the section extractor: the dict
`{level, text, page, confidence, ...}` produced by the heading extractor. -/
structure Heading where
  text : String
  page : Nat
  y_position : ℚ
  level : String
  confidence : ℚ
  deriving DecidableEq, Repr

/-- A section record as produced by `extract_sections_with_content` and
consumed by the scorer and ranker.  `relevance_score` and `importance_rank`
are absent at extraction time; the downstream code reads them with
`.get(key, 0)`, which the defaults `0` model. -/
structure Section where
  document : String
  section_title : String
  page_number : Nat
  content : String
  heading_level : String
  confidence : ℚ
  word_count : Nat
  start_page : Nat
  relevance_score : ℚ
  importance_rank : Nat
  deriving DecidableEq, Repr

/-- Ordering key used by `sorted(headings, key=lambda x: (x['page'],
x.get('y_position', 0)))`. -/
def headingLe (h1 h2 : Heading) : Prop :=
  h1.page < h2.page ∨ (h1.page = h2.page ∧ h1.y_position ≤ h2.y_position)

instance : DecidableRel headingLe := fun h1 h2 => by
  unfold headingLe; infer_instance

instance : IsTotal Heading headingLe where
  total h1 h2 := by
    rcases Nat.lt_trichotomy h1.page h2.page with h | h | h
    · exact Or.inl (Or.inl h)
    · rcases le_total h1.y_position h2.y_position with hy | hy
      · exact Or.inl (Or.inr ⟨h, hy⟩)
      · exact Or.inr (Or.inr ⟨h.symm, hy⟩)
    · exact Or.inr (Or.inl h)

instance : IsTrans Heading headingLe where
  trans a b c hab hbc := by
    rcases hab with h1 | ⟨h1, hy1⟩
    · rcases hbc with h2 | ⟨h2, _⟩
      · exact Or.inl (h1.trans h2)
      · exact Or.inl (h2 ▸ h1)
    · rcases hbc with h2 | ⟨h2, hy2⟩
      · exact Or.inl (h1 ▸ h2)
      · exact Or.inr ⟨h1.trans h2, hy1.trans hy2⟩

/-- `sorted(headings, key=lambda x: (x['page'], x.get('y_position', 0)))`.
Python's `sorted` is the stable sort for this key; insertion sort is stable,
and stable sorts for a fixed total preorder agree. -/
def sortHeadings (hs : List Heading) : List Heading :=
  List.insertionSort headingLe hs

/-- Pair every heading of the (sorted) list with the following heading, if
any — the `sorted_headings[i+1] if i+1 < len(sorted_headings) else None`
access of the extraction loop. -/
def withNext : List Heading → List (Heading × Option Heading)
  | [] => []
  | [h] => [(h, none)]
  | h :: h2 :: t => (h, some h2) :: withNext (h2 :: t)

/-- Python `page_text[pos + len(heading):]` after `pos = page_text.find(t)`,
with the fail-open behaviour when `find` returns `-1`. -/
def cutAfterSub (t : List Char) (page : List Char) : List Char :=
  match findSub t page 0 with
  | some i => page.drop (i + t.length)
  | none => page

/-- Python `page_text[:pos]` after `pos = page_text.find(t)`, with the
fail-open behaviour when `find` returns `-1`. -/
def cutBeforeSub (t : List Char) (page : List Char) : List Char :=
  match findSub t page 0 with
  | some i => page.take i
  | none => page

/-- `SectionExtractor._extract_section_content`: slice the document text
from the current heading's page to the page before the next heading's page
(or the last page), trimming on the start page the text before the heading
and on the end page the text from the next heading on.  `pages` is the list
of page texts, 1-indexed by heading page numbers. -/
def extractSectionContent (pages : List String) (h : Heading)
    (next : Option Heading) : String :=
  let startPage := h.page - 1
  let endPage :=
    match next with
    | some nh => nh.page - 1
    | none => pages.length - 1
  let stop := min (endPage + 1) pages.length
  let nums := List.range' startPage (stop - startPage)
  let parts := nums.map (fun pn =>
    let pageText := (pages.getD pn "").data
    let pageText :=
      if pn = startPage then cutAfterSub h.text.data pageText else pageText
    let pageText :=
      match next with
      | some nh =>
        if pn = endPage ∧ nh.page = endPage + 1 then
          cutBeforeSub nh.text.data pageText
        else pageText
      | none => pageText
    pageText)
  cleanExtractedText (String.mk (List.intercalate [' '] parts))

/-- The section dict built for one heading in the extraction loop. -/
def mkHeadingSection (docName : String) (h : Heading) (content : String) :
    Section where
  document := docName
  section_title := h.text
  page_number := h.page
  content := content
  heading_level := h.level
  confidence := h.confidence
  word_count := (pySplit content.data).length
  start_page := h.page
  relevance_score := 0
  importance_rank := 0

/-- The extraction loop over the sorted headings: a section is emitted only
when its extracted content is a non-empty string (`if section_content:`). -/
def headingSections (pages : List String) (docName : String)
    (hs : List Heading) : List Section :=
  (withNext hs).filterMap (fun p =>
    let content := extractSectionContent pages p.1 p.2
    if content = "" then none else some (mkHeadingSection docName p.1 content))

/-- `doc.get_text()` concatenation of `_extract_full_document_as_section`:
`full_text += page.get_text() + "\n"`. -/
def fullDocumentText (pages : List String) : String :=
  pages.foldl (fun acc p => acc ++ p ++ "\n") ""

/-- `SectionExtractor._extract_full_document_as_section`: the whole document
as a single section titled `"Full Document"` with confidence `1.0`. -/
def fullDocumentSection (pages : List String) (docName : String) : Section where
  document := docName
  section_title := "Full Document"
  page_number := 1
  content := cleanExtractedText (fullDocumentText pages)
  heading_level := "H1"
  confidence := 1
  word_count := (pySplit (fullDocumentText pages).data).length
  start_page := 1
  relevance_score := 0
  importance_rank := 0

/-- `SectionExtractor.extract_sections_with_content`: with no headings, fall
back to the whole document; otherwise extract one section per sorted heading
with non-empty content, falling back to the whole document when none
survives. -/
def extractSectionsWithContent (hs : List Heading) (pages : List String)
    (docName : String) : List Section :=
  if hs = [] then [fullDocumentSection pages docName]
  else
    let sections := headingSections pages docName (sortHeadings hs)
    if sections = [] then [fullDocumentSection pages docName]
    else sections

/-! ## `SectionRanker._titles_too_similar` and
`SectionRanker.filter_and_deduplicate_sections` -/

/-- `_titles_too_similar`: exact match, substring either way, or word-set
Jaccard overlap strictly above `0.7` (`similarity > 0.7` over the word sets
of the two titles, checked only when both sets are non-empty; empty titles
are never similar). -/
def titlesTooSimilar (t1 t2 : List Char) : Bool :=
  if t1 = [] || t2 = [] then false
  else if t1 = t2 then true
  else if containsSub t2 t1 || containsSub t1 t2 then true
  else
    let w1 := (pySplit t1).dedup
    let w2 := (pySplit t2).dedup
    if w1 ≠ [] && w2 ≠ [] then
      let overlap := (w1.filter (fun w => w ∈ w2)).length
      let totalUnique := ((pySplit t1) ++ (pySplit t2)).dedup.length
      decide (7 * totalUnique < 10 * overlap)
    else false

/-- The lowercased, stripped title used by the deduplication loop
(`section.get('section_title', '').lower().strip()`). -/
def dedupTitle (s : Section) : List Char :=
  stripL (lowerL s.section_title.data)

/-- `re.findall(r'\w+', content.lower())` for a section. -/
def contentWords (s : Section) : List (List Char) :=
  wordRuns (lowerL s.content.data)

/-- Lexicographic (code-point) comparison of character lists: Python string
`<=` as used by `sorted` on a list of words. -/
def charListLeB : List Char → List Char → Bool
  | [], _ => true
  | _ :: _, [] => false
  | a :: as, b :: bs =>
    if a < b then true else if a = b then charListLeB as bs else false

/-- Propositional form of `charListLeB`, for `List.insertionSort`. -/
def wordLe (a b : List Char) : Prop :=
  charListLeB a b = true

instance : DecidableRel wordLe := fun a b => by
  unfold wordLe; infer_instance

/-- The content fingerprint of the deduplication loop:
`' '.join(sorted(content_words[:20]))` — the space-join of the
lexicographically sorted list of the FIRST 20 content words, with
multiplicity (the words are not deduplicated before hashing; Python's `hash`
is modelled by the joined string itself, the fingerprint it is applied to). -/
def contentFingerprint (s : Section) : List Char :=
  List.intercalate [' '] (List.insertionSort wordLe ((contentWords s).take 20))

/-- Worker for `filterAndDeduplicateSections`: `seenT` is the set of kept
processed titles, `seenH` the set of recorded content fingerprints. -/
def filterDedupGo : List Section → List (List Char) → List (List Char) →
    List Section
  | [], _, _ => []
  | s :: rest, seenT, seenH =>
    let title := dedupTitle s
    if seenT.any (fun st => titlesTooSimilar title st) then
      filterDedupGo rest seenT seenH
    else
      let cw := contentWords s
      if 10 < cw.length then
        let h := contentFingerprint s
        if h ∈ seenH then filterDedupGo rest seenT seenH
        else s :: filterDedupGo rest (title :: seenT) (h :: seenH)
      else s :: filterDedupGo rest (title :: seenT) seenH

/-- `SectionRanker.filter_and_deduplicate_sections`. -/
def filterAndDeduplicateSections (sections : List Section) : List Section :=
  filterDedupGo sections [] []

/-! ## `SectionRanker.balance_section_distribution` -/

/-- Score ordering for `sorted(..., key=lambda x: x.get('relevance_score',
0), reverse=True)`: descending by relevance score (the stable descending
sort coincides with the stable sort for this relation). -/
def scoreGe (a b : Section) : Prop :=
  b.relevance_score ≤ a.relevance_score

instance : DecidableRel scoreGe := fun a b => by
  unfold scoreGe; infer_instance

instance : IsTotal Section scoreGe where
  total a b := le_total b.relevance_score a.relevance_score

instance : IsTrans Section scoreGe where
  trans _ _ _ hab hbc := le_trans hbc hab

/-- Insert an element at the end of its key's group, creating the group at
the end when the key is new — one step of accumulation into a
`defaultdict(list)` (whose keys keep insertion order). -/
def groupInsert {κ α : Type} [DecidableEq κ] (k : κ) (x : α) :
    List (κ × List α) → List (κ × List α)
  | [] => [(k, [x])]
  | (k', l) :: rest =>
    if k' = k then (k', l ++ [x]) :: rest else (k', l) :: groupInsert k x rest

/-- Group a list by a key function, keys in first-occurrence order and each
group in original order — `defaultdict(list)` accumulation. -/
def groupByKey {κ α : Type} [DecidableEq κ] (key : α → κ) (l : List α) :
    List (κ × List α) :=
  l.foldl (fun acc x => groupInsert (key x) x acc) []

/-- `for i, section in enumerate(final_sections): section['importance_rank']
= i + 1`, starting from rank `i`. -/
def assignRanksFrom (i : Nat) : List Section → List Section
  | [] => []
  | s :: rest => { s with importance_rank := i } :: assignRanksFrom (i + 1) rest

/-- `SectionRanker.balance_section_distribution`: group by document, keep
the `maxPerDoc` highest-scoring sections of each document, merge, re-sort by
score descending and reassign dense 1-based importance ranks. -/
def balanceSectionDistribution (maxPerDoc : Nat) (sections : List Section) :
    List Section :=
  if sections = [] then sections
  else
    let docSections := groupByKey (fun s => s.document) sections
    let balanced := docSections.flatMap (fun g =>
      (List.insertionSort scoreGe g.2).take maxPerDoc)
    let finalSections := List.insertionSort scoreGe balanced
    assignRanksFrom 1 finalSections

/-! ## `SectionRanker.refine_section_text`

The `refinement_rules` table: `key_phrases` and the `remove_patterns`.  The
remove patterns are literal lowercase substrings except `references?`, whose
optional `s` makes `re.search` equivalent to the substring `reference`.
(The table's `boost_patterns` entries are not used by
`refine_section_text` and are omitted.) -/

/-- `key_phrases` and `remove_patterns` for a domain, with the `.get(domain,
rules['academic'])` fallback. -/
def refinementRules (domain : String) : List String × List String :=
  if domain = "academic" then
    (["methodology", "analysis", "results", "findings", "literature review"],
     ["reference", "bibliography", "appendix"])
  else if domain = "business" then
    (["revenue", "financial", "market", "growth", "performance"],
     ["disclaimer", "legal notice", "copyright"])
  else if domain = "educational" then
    (["concept", "theory", "principle", "example", "definition"],
     ["exercise", "homework", "problem set"])
  else
    (["methodology", "analysis", "results", "findings", "literature review"],
     ["reference", "bibliography", "appendix"])

/-- `re.match(r'^\s*(page|p\.)\s*\d+', s)` on a lowercased sentence. -/
def pageRefStart (l : List Char) : Bool :=
  let body := l.dropWhile pySpace
  let afterWord : List Char → Bool := fun r =>
    match r.dropWhile pySpace with
    | [] => false
    | d :: _ => d.isDigit
  ("page".data.isPrefixOf body && afterWord (body.drop 4)) ||
    ("p.".data.isPrefixOf body && afterWord (body.drop 2))

/-- `SectionRanker._should_skip_sentence` (on an already stripped sentence):
matches a remove pattern, is mostly symbols (fewer than half of the
characters are word characters or whitespace — the float comparison
`len(kept) < len(sentence) * 0.5` is the exact integer comparison
`2 * len(kept) < len(sentence)`), is a page reference, or is a long
all-uppercase string. -/
def shouldSkipSentence (sentence : List Char) (removeSubs : List String) :
    Bool :=
  let sl := lowerL sentence
  removeSubs.any (fun p => containsSub sl p.data) ||
    2 * ((sentence.filter (fun c => isWordChar c || pySpace c)).length) <
      sentence.length ||
    pageRefStart sl ||
    (pyIsUpper sentence && 10 < sentence.length)

/-- `SectionRanker._is_informative_sentence`: scored from informative verbs
(+2), digits (+1), 10–50 words (+1) and subject-matter keywords (+2); kept
when the score is at least 3. -/
def isInformativeSentence (sentence : List Char) : Bool :=
  let sl := lowerL sentence
  let informativeVerbs := ["shows", "demonstrates", "indicates", "suggests",
    "reveals", "explains", "describes", "analyzes", "examines"]
  let hasInformativeVerb := informativeVerbs.any (fun v => containsSub sl v.data)
  let hasNumbers := sentence.any Char.isDigit
  let wc := (pySplit sentence).length
  let reasonableLength := 10 ≤ wc && wc ≤ 50
  let subjectKeywords := ["method", "result", "finding", "analysis", "data",
    "study", "research", "concept", "theory"]
  let hasSubjectKeywords := subjectKeywords.any (fun k => containsSub sl k.data)
  let score :=
    (if hasInformativeVerb then 2 else 0) + (if hasNumbers then 1 else 0) +
      (if reasonableLength then 1 else 0) + (if hasSubjectKeywords then 2 else 0)
  3 ≤ score

/-- The sentence filter of `refine_section_text`: split on `[.!?]+`, strip,
drop short sentences, drop sentences matching `_should_skip_sentence`, keep
sentences with a domain key phrase or judged informative; join with `'. '`. -/
def refinedJoined (content : String) (domain : String) : List Char :=
  let rules := refinementRules domain
  let sentences := splitRuns (fun c => c = '.' || c = '!' || c = '?') content.data
  let refinedSentences := sentences.filterMap (fun s0 =>
    let s := stripL s0
    if s.length < 20 then none
    else if shouldSkipSentence s rules.2 then none
    else
      let sl := lowerL s
      let hasKeyPhrase := rules.1.any (fun p => containsSub sl p.data)
      if hasKeyPhrase || isInformativeSentence s then some s else none)
  List.intercalate ['.', ' '] refinedSentences

/-- `SectionRanker.refine_section_text`: the filtered sentences, unless
filtering removed more than 70% of the original character length
(`len(refined_text) < len(content) * 0.3`, exactly the integer comparison
`10 * len(refined_text) < 3 * len(content)`), in which case the original
content is returned, truncated to its first 1000 characters plus `'...'`
when it is longer than 1000 characters. -/
def refineSectionText (s : Section) (domain : String) : String :=
  let content := s.content
  if content = "" then content
  else
    let refinedText := refinedJoined content domain
    if 10 * refinedText.length < 3 * content.data.length then
      if 1000 < content.data.length then
        String.mk (content.data.take 1000 ++ "...".data)
      else content
    else String.mk refinedText

/-! ## `RelevanceScorer` -/

/-- The keyword-match accumulation loop of `calculate_keyword_similarity`:
for each keyword, exact substring occurrences count 1 and text tokens in a
substring relationship with the keyword count 0.5. -/
def keywordMatchTotal (textLower : List Char) (textWords : List (List Char))
    (keywords : List String) : ℚ :=
  (keywords.map (fun kw =>
    let kl := lowerL kw.data
    let exactMatches := countOcc textLower kl
    let partialMatches := (textWords.filter (fun w =>
      containsSub w kl || containsSub kl w)).length
    (exactMatches : ℚ) + (partialMatches : ℚ) * (1/2))).sum

/-- `RelevanceScorer.calculate_keyword_similarity`: guarded TF-IDF-like
similarity, normalised by the text token count and by the keyword count, and
capped at 1. -/
def calculateKeywordSimilarity (text : String) (keywords : List String) : ℚ :=
  if keywords = [] ∨ text = "" then 0
  else
    let textLower := lowerL text.data
    let textWords := wordRuns textLower
    if textWords = [] then 0
    else
      let keywordMatches := keywordMatchTotal textLower textWords keywords
      min ((keywordMatches / (textWords.length : ℚ)) *
        (keywordMatches / (keywords.length : ℚ))) 1

/-- The `important_title_patterns` test of
`calculate_section_importance`, on the lowercased title: a keyword from one
of the two `\b(...)\b` alternations, `\b(chapter|section)\s+\d+`, or a
leading `^\d+[\.\)]\s*\w+`. -/
def importantTitle (tl : List Char) : Bool :=
  let set1 := ["introduction", "overview", "summary", "conclusion",
    "abstract", "methodology", "results", "analysis", "discussion"]
  let set2 := ["key", "important", "main", "primary", "essential",
    "fundamental", "critical"]
  anyWordRun (fun r => set1.any (fun w => r = w.data)) (fun _ => true) tl ||
    anyWordRun (fun r => set2.any (fun w => r = w.data)) (fun _ => true) tl ||
    anyWordRun (fun r => r = "chapter".data || r = "section".data)
      (spaceThen Char.isDigit) tl ||
    (let ds := tl.takeWhile Char.isDigit
     ds ≠ [] &&
       match tl.drop ds.length with
       | c :: rest =>
         (c = '.' || c = ')') &&
           match rest.dropWhile pySpace with
           | d :: _ => isWordChar d
           | [] => false
       | [] => false)

/-- One `\b(...)\b` content-quality indicator of
`calculate_section_importance`. -/
def hasQualityIndicator (words : List String) (sl : List Char) : Bool :=
  anyWordRun (fun r => words.any (fun w => r = w.data)) (fun _ => true) sl

/-- `RelevanceScorer.calculate_section_importance`: length bucket, one-time
title-pattern bonus, additive content-quality indicators, capped at 1. -/
def calculateSectionImportance (sectionText title : String) : ℚ :=
  let wc := (pySplit sectionText.data).length
  let lengthPart : ℚ :=
    if 50 ≤ wc ∧ wc ≤ 500 then 3/10
    else if 500 < wc ∧ wc ≤ 1000 then 1/5
    else if 1000 < wc then 1/10
    else 0
  let titlePart : ℚ := if importantTitle (lowerL title.data) then 1/5 else 0
  let sl := lowerL sectionText.data
  let qualityPart : ℚ :=
    (if hasQualityIndicator ["definition", "define", "concept", "principle",
        "theory"] sl then 1/10 else 0) +
    (if hasQualityIndicator ["example", "instance", "case", "illustration"]
        sl then 1/10 else 0) +
    (if hasQualityIndicator ["result", "finding", "conclusion", "outcome"]
        sl then 3/20 else 0) +
    (if hasQualityIndicator ["method", "approach", "technique", "procedure"]
        sl then 1/10 else 0) +
    (if hasQualityIndicator ["analysis", "evaluation", "assessment",
        "comparison"] sl then 1/10 else 0) +
    (if hasQualityIndicator ["data", "evidence", "proof", "statistics"]
        sl then 1/10 else 0)
  min (lengthPart + titlePart + qualityPart) 1

/-- One job/title boost of `score_section_relevance`: the job text contains
one of `jobKws` as a substring and the section title contains one of
`titleKws`. -/
def boostApplies (jobKws titleKws : List String) (originalJob title : String) :
    Bool :=
  jobKws.any (fun k => containsSub (lowerL originalJob.data) k.data) &&
    titleKws.any (fun t => containsSub (lowerL title.data) t.data)

/-- `RelevanceScorer.score_section_relevance`: weighted sum
`0.4·persona + 0.4·job + 0.2·importance`, three independent ×1.2 boosts,
final cap at 1. -/
def scoreSectionRelevance (personaKeywords jobKeywords : List String)
    (originalJob : String) (s : Section) : ℚ :=
  let text := s.content ++ " " ++ s.section_title
  let personaRelevance := calculateKeywordSimilarity text personaKeywords
  let jobRelevance := calculateKeywordSimilarity text jobKeywords
  let sectionImportance :=
    calculateSectionImportance s.content s.section_title
  let finalScore :=
    personaRelevance * (2/5) + jobRelevance * (2/5) +
      sectionImportance * (1/5)
  let finalScore :=
    if boostApplies ["literature", "review", "methodology"]
        ["method", "literature", "review", "approach"] originalJob
        s.section_title then
      finalScore * (6/5)
    else finalScore
  let finalScore :=
    if boostApplies ["exam", "study", "concept"]
        ["concept", "theory", "principle", "key"] originalJob
        s.section_title then
      finalScore * (6/5)
    else finalScore
  let finalScore :=
    if boostApplies ["financial", "revenue", "analysis"]
        ["financial", "revenue", "analysis", "performance"] originalJob
        s.section_title then
      finalScore * (6/5)
    else finalScore
  min finalScore 1

/-! ## `HeadingOnlyPDFExtractor.strict_heading_detection`

Blocks are modelled at the point where `strict_heading_detection` consumes
them: dictionaries carrying the text together with the feature fields added
by `enhance_block_features` (which are plain data by then). -/

/-- An enhanced text block, as consumed by `strict_heading_detection`. -/
structure EBlock where
  text : String
  font : String
  size : ℚ
  page : Nat
  y_position : ℚ
  is_bold : Bool
  is_inline_bold : Bool
  is_left_aligned : Bool
  is_title_case : Bool
  is_all_caps : Bool
  has_articles : Bool
  has_conjunctions : Bool
  ends_with_colon : Bool
  starts_with_number : Bool
  word_count : Nat
  sentence_count : Nat
  size_vs_body : ℚ
  deriving DecidableEq, Repr

/-- The keyword alternation of the first `heading_patterns` regex. -/
def headingKeywords : List String :=
  ["Chapter", "Section", "Part", "Appendix", "Introduction", "Conclusion",
   "Summary", "Abstract", "Overview", "Background", "Methodology", "Results",
   "Discussion", "References", "Bibliography"]

/-- `^(Chapter|Section|...)\b`: the text starts with one of the keywords,
followed by a word boundary. -/
def matchKeywordStart (t : List Char) : Bool :=
  headingKeywords.any (fun w =>
    w.data.isPrefixOf t &&
      match t.drop w.data.length with
      | [] => true
      | c :: _ => !isWordChar c)

/-- `^\d+[\.\)]\s*[A-Z]`: numbered section start. -/
def matchNumberedStart (t : List Char) : Bool :=
  let ds := t.takeWhile Char.isDigit
  ds ≠ [] &&
    match t.drop ds.length with
    | c :: rest =>
      (c = '.' || c = ')') &&
        match rest.dropWhile pySpace with
        | d :: _ => isUpperAZ d
        | [] => false
    | [] => false

/-- `^[A-Z][A-Z\s]{3,25}$`: a short all-caps title. -/
def matchShortAllCaps (t : List Char) : Bool :=
  match t with
  | c :: rest =>
    isUpperAZ c && 3 ≤ rest.length && rest.length ≤ 25 &&
      rest.all (fun d => isUpperAZ d || pySpace d)
  | [] => false

/-- Up to `k` further `(\s+[A-Z][a-z]+)` groups followed by the end of the
string, for the title-case pattern. -/
def titleCaseGroups : Nat → List Char → Bool
  | _, [] => true
  | 0, _ :: _ => false
  | k + 1, c :: rest =>
    pySpace c &&
      match rest.dropWhile pySpace with
      | [] => false
      | d :: rest2 =>
        isUpperAZ d &&
          (let lows := rest2.takeWhile isLowerAZ
           lows ≠ [] && titleCaseGroups k (rest2.drop lows.length))

/-- `^[A-Z][a-z]+(\s+[A-Z][a-z]+){0,4}$`: title case with at most five
words. -/
def matchTitleCase (t : List Char) : Bool :=
  match t with
  | c :: rest =>
    isUpperAZ c &&
      (let lows := rest.takeWhile isLowerAZ
       lows ≠ [] && titleCaseGroups 4 (rest.drop lows.length))
  | [] => false

/-- `any(re.match(pattern, text) for pattern in heading_patterns)`. -/
def matchesHeadingPattern (t : List Char) : Bool :=
  matchKeywordStart t || matchNumberedStart t || matchShortAllCaps t ||
    matchTitleCase t

/-- The common-word alternation of the confidence scorer's density check. -/
def confidenceCommonWords : List String :=
  ["the", "a", "an", "and", "or", "but", "in", "on", "at", "by", "for",
   "with", "from", "to", "of", "is", "are", "was", "were", "be", "been",
   "being", "have", "has", "had", "do", "does", "did", "will", "would",
   "could", "should", "may", "might", "can"]

/-- The confidence heuristic of `strict_heading_detection` (Phase B).  The
float thresholds `1.3` and `1.15` are the rationals `13/10` and `23/20`; the
float comparison `common_words > word_count * 0.3` is the exact integer
comparison `10 * common_words > 3 * word_count`. -/
def computeConfidence (b : EBlock) : Int :=
  let t := stripL b.text.data
  let sizePart : Int :=
    if b.size_vs_body ≥ Rat.divInt 13 10 then 5
    else if b.size_vs_body ≥ Rat.divInt 23 20 then 3
    else 0
  let boldPart : Int :=
    if b.is_bold then (if b.is_inline_bold then -6 else 4) else 0
  let patternPart : Int := if matchesHeadingPattern t then 4 else 0
  let lengthPart : Int :=
    if 3 ≤ t.length ∧ t.length ≤ 50 then 2
    else if 51 ≤ t.length ∧ t.length ≤ 80 then 1
    else -2
  let wordCountPart : Int :=
    if 1 ≤ b.word_count ∧ b.word_count ≤ 8 then 2
    else if 15 < b.word_count then -3
    else 0
  let colonPart : Int := if b.ends_with_colon then 2 else 0
  let numberPart : Int := if b.starts_with_number then 3 else 0
  let titleCasePart : Int :=
    if b.is_title_case ∧ b.word_count ≤ 10 then 2 else 0
  let allCapsPart : Int := if b.is_all_caps ∧ t.length ≤ 40 then 2 else 0
  let articlesPart : Int :=
    if b.has_articles ∧ b.word_count ≤ 5 then -2
    else if b.has_articles ∧ 5 < b.word_count then -4
    else 0
  let conjunctionsPart : Int := if b.has_conjunctions then -3 else 0
  let sentencesPart : Int := if 1 < b.sentence_count then -5 else 0
  let dotCount := t.count '.'
  let periodsPart : Int :=
    if 1 < dotCount ∨ (dotCount = 1 ∧ t.getLast? ≠ some '.') then -3 else 0
  let commonWords := countWordRuns
    (fun r => confidenceCommonWords.any (fun w => lowerL r = w.data)) t
  let commonPart : Int := if 3 * b.word_count < 10 * commonWords then -2 else 0
  let shortBoldPart : Int :=
    if b.is_bold ∧ t.length < 10 ∧ ¬matchesHeadingPattern t then -3 else 0
  sizePart + boldPart + patternPart + lengthPart + wordCountPart + colonPart +
    numberPart + titleCasePart + allCapsPart + articlesPart +
    conjunctionsPart + sentencesPart + periodsPart + commonPart + shortBoldPart

/-- The verb alternation of the subject-predicate test of
`final_heading_validation`. -/
def sentenceVerbs : List String :=
  ["is", "are", "was", "were", "has", "have", "had", "will", "would",
   "could", "should", "may", "might", "can"]

/-- `HeadingOnlyPDFExtractor.final_heading_validation`. -/
def finalHeadingValidation (b : EBlock) : Bool :=
  let t := stripL b.text.data
  if b.is_inline_bold then false
  else if anyWordRun (fun r => sentenceVerbs.any (fun w => lowerL r = w.data))
      (spaceThen isWordChar) t then false
  else if ["as shown in", "according to", "it should be noted",
      "in this section", "as described", "for example", "such as",
      "in order to"].any (fun p => containsSub (lowerL t) p.data) then false
  else if ["figure", "table", "chart", "graph", "image", "photo",
      "diagram"].any (fun w =>
        w.data.isPrefixOf (lowerL t) &&
          spaceThen Char.isDigit ((lowerL t).drop w.data.length)) then false
  else if b.is_bold ∧ b.word_count ≤ 2 ∧ ¬b.is_left_aligned then false
  else true

/-- Candidate ordering `key=lambda x: (-x[1], -x[0]["size"], x[0]["page"],
x[0]["y_position"])`. -/
def candidateLe (p1 p2 : EBlock × Int) : Prop :=
  p2.2 < p1.2 ∨ (p2.2 = p1.2 ∧
    (p2.1.size < p1.1.size ∨ (p2.1.size = p1.1.size ∧
      (p1.1.page < p2.1.page ∨ (p1.1.page = p2.1.page ∧
        p1.1.y_position ≤ p2.1.y_position)))))

instance : DecidableRel candidateLe := fun p1 p2 => by
  unfold candidateLe; infer_instance

/-- `HeadingOnlyPDFExtractor.are_headings_similar` (on lowercased stripped
texts): near-equal lengths with positional character overlap above `0.8`
(`similarity > 0.8` is the exact integer comparison `4 * max(len) <
5 * common`), or a substring relationship. -/
def areHeadingsSimilar (t1 t2 : List Char) : Bool :=
  ((t1.length : Int) - t2.length ≤ 2 && (t2.length : Int) - t1.length ≤ 2 &&
    (let common := ((t1.zip t2).filter (fun p => p.1 = p.2)).length
     4 * max t1.length t2.length < 5 * common)) ||
    containsSub t2 t1 || containsSub t1 t2

/-- Worker for `removeDuplicateHeadings`: `seen` is the set of kept
normalized texts. -/
def removeDupHeadingsGo : List (EBlock × Int) → List (List Char) →
    List (EBlock × Int)
  | [], _ => []
  | p :: rest, seen =>
    let t := lowerL (stripL p.1.text.data)
    if t ∈ seen then removeDupHeadingsGo rest seen
    else if seen.any (fun st => areHeadingsSimilar t st) then
      removeDupHeadingsGo rest seen
    else p :: removeDupHeadingsGo rest (t :: seen)

/-- `HeadingOnlyPDFExtractor.remove_duplicate_headings`. -/
def removeDuplicateHeadings (candidates : List (EBlock × Int)) :
    List (EBlock × Int) :=
  removeDupHeadingsGo candidates []

/-- An outline entry, as produced by `assign_heading_levels`. -/
structure OutlineEntry where
  level : String
  text : String
  page : Nat
  confidence : Int
  size : ℚ
  font : String
  is_bold : Bool
  word_count : Nat
  deriving DecidableEq, Repr

/-- Size ordering `sorted(size_groups.keys(), reverse=True)`. -/
def sizeGe (a b : ℚ) : Prop := b ≤ a

instance : DecidableRel sizeGe := fun a b => by
  unfold sizeGe; infer_instance

/-- Document ordering `key=lambda x: (x[0]["page"], x[0]["y_position"])`. -/
def pagePosLe (p1 p2 : EBlock × Int) : Prop :=
  p1.1.page < p2.1.page ∨
    (p1.1.page = p2.1.page ∧ p1.1.y_position ≤ p2.1.y_position)

instance : DecidableRel pagePosLe := fun p1 p2 => by
  unfold pagePosLe; infer_instance

/-- First index of `x` in `l` (`l.length` when absent). -/
def posOf (x : ℚ) : List ℚ → Nat
  | [] => 0
  | y :: rest => if y = x then 0 else posOf x rest + 1

/-- The `level_map`: the top three distinct sizes (descending) get `H1`,
`H2`, `H3`; any further size also maps to `H3`. -/
def levelOfSize (sortedSizes : List ℚ) (size : ℚ) : String :=
  match posOf size sortedSizes with
  | 0 => "H1"
  | 1 => "H2"
  | _ => "H3"

/-- `HeadingOnlyPDFExtractor.assign_heading_levels`: group candidates by
exact size, map the distinct sizes (descending) to levels, then emit the
outline in `(page, y_position)` order. -/
def assignHeadingLevels (candidates : List (EBlock × Int)) :
    List OutlineEntry :=
  if candidates = [] then []
  else
    let sizeGroups := groupByKey (fun p => p.1.size) candidates
    let sortedSizes := List.insertionSort sizeGe (sizeGroups.map Prod.fst)
    let allBlocks := sizeGroups.flatMap Prod.snd
    let allBlocks := List.insertionSort pagePosLe allBlocks
    allBlocks.map (fun p =>
      { level := levelOfSize sortedSizes p.1.size
        text := p.1.text
        page := p.1.page
        confidence := p.2
        size := p.1.size
        font := p.1.font
        is_bold := p.1.is_bold
        word_count := p.1.word_count })

/-- `HeadingOnlyPDFExtractor.strict_heading_detection`: Phase B confidence
scoring with the ≥ 7 cutoff and `final_heading_validation`, candidate
sorting, deduplication, level assignment, and the document title taken from
the first outline entry. -/
def strictHeadingDetection (blocks : List EBlock) :
    String × List OutlineEntry :=
  if blocks = [] then ("", [])
  else
    let headingCandidates := blocks.filterMap (fun b =>
      let confidence := computeConfidence b
      if 7 ≤ confidence ∧ finalHeadingValidation b then
        some (b, confidence)
      else none)
    let sortedCandidates := List.insertionSort candidateLe headingCandidates
    let filteredCandidates := removeDuplicateHeadings sortedCandidates
    let outline := assignHeadingLevels filteredCandidates
    let title := match outline with
      | e :: _ => e.text
      | [] => ""
    (title, outline)

/-! # Theorems

## C4: zero detected headings yield exactly one `"Full Document"` section -/

/-- C4: for every document in which zero headings are detected, the section
extractor emits exactly one section, whose `section_title` is
`"Full Document"`, whose confidence is `1.0`, and whose content is the
cleaned full text of the document. -/
theorem no_headings_yields_full_document (pages : List String)
    (docName : String) :
    extractSectionsWithContent [] pages docName =
        [fullDocumentSection pages docName] ∧
      (fullDocumentSection pages docName).section_title = "Full Document" ∧
      (fullDocumentSection pages docName).confidence = 1 ∧
      (fullDocumentSection pages docName).content =
        cleanExtractedText (fullDocumentText pages) :=
  ⟨by simp [extractSectionsWithContent], rfl, rfl, rfl⟩

/-! ## C9: the whole-document fallback also fires when all heading contents
clean to empty -/

/-- C9: when headings are detected but every heading's extracted content
cleans to the empty string (so no per-heading section is produced),
`extract_sections_with_content` still returns exactly one `"Full Document"`
section with confidence `1.0` instead of an empty list. -/
theorem empty_heading_contents_yield_full_document (hs : List Heading)
    (pages : List String) (docName : String) (hne : hs ≠ [])
    (hempty : ∀ p ∈ withNext (sortHeadings hs),
      extractSectionContent pages p.1 p.2 = "") :
    extractSectionsWithContent hs pages docName =
        [fullDocumentSection pages docName] ∧
      (fullDocumentSection pages docName).section_title = "Full Document" ∧
      (fullDocumentSection pages docName).confidence = 1 := by
  refine ⟨?_, rfl, rfl⟩
  have hsec : headingSections pages docName (sortHeadings hs) = [] := by
    unfold headingSections
    refine List.filterMap_eq_nil_iff.mpr (fun p hp => ?_)
    rw [hempty p hp]
    simp
  unfold extractSectionsWithContent
  rw [if_neg hne, hsec]
  simp

/-- Concrete headings for the C9 witness and the C1 counterexample family:
two headings on the same one-page document. -/
def wHeadingA : Heading := ⟨"A", 1, 0, "H1", 10⟩

/-- Second heading of the C9 witness document. -/
def wHeadingB : Heading := ⟨"B", 1, 1, "H1", 9⟩

/-- C9 witness: on the one-page document `"A B"` with headings `"A"` and
`"B"`, both extracted contents clean to `""`, and the extractor returns the
single `"Full Document"` section. -/
theorem empty_heading_contents_yield_full_document_witness :
    extractSectionsWithContent [wHeadingA, wHeadingB] ["A B"] "doc" =
        [fullDocumentSection ["A B"] "doc"] ∧
      (fullDocumentSection ["A B"] "doc").section_title = "Full Document" ∧
      (fullDocumentSection ["A B"] "doc").confidence = 1 :=
  empty_heading_contents_yield_full_document [wHeadingA, wHeadingB] ["A B"]
    "doc" (by decide) (by decide)

/-! ## C1: sections per heading and page monotonicity -/

/-- Headings for the C1 counterexample: two surviving headings on one page,
the first one's content slice cleans to empty. -/
def c1Headings : List Heading := [⟨"AAA", 1, 0, "H1", 8⟩, ⟨"BBB", 1, 1, "H1", 9⟩]

/-- Page texts for the C1 counterexample. -/
def c1Pages : List String := ["AAA BBB rest"]

/-- C1 counterexample: a document with two surviving headings for which the
extractor emits only one section — the section count does not equal the
number of headings that survived filtering, because a heading whose
extracted content cleans to the empty string is silently dropped. -/
theorem sections_count_ne_surviving_headings :
    (extractSectionsWithContent c1Headings c1Pages "doc").length = 1 ∧
      c1Headings.length = 2 := by
  constructor
  · decide
  · rfl

/-- A `headingLe` pair has non-decreasing page numbers. -/
theorem headingLe_page_le {h1 h2 : Heading} (h : headingLe h1 h2) :
    h1.page ≤ h2.page := by
  rcases h with h | ⟨h, _⟩
  · exact Nat.le_of_lt h
  · exact Nat.le_of_eq h

/-- `withNext` keeps the underlying heading list as its first components. -/
theorem withNext_map_fst (l : List Heading) :
    (withNext l).map Prod.fst = l := by
  induction l with
  | nil => rfl
  | cons h t ih =>
    cases t with
    | nil => rfl
    | cons h2 t2 => simpa [withNext] using ih

/-- The length of `filterMap` counts the elements mapped to `some`. -/
theorem length_filterMap_eq_countP {α β : Type} (g : α → Option β)
    (l : List α) :
    (l.filterMap g).length = l.countP (fun x => (g x).isSome) := by
  induction l with
  | nil => rfl
  | cons x t ih =>
    cases hx : g x with
    | none => simp [List.filterMap_cons, hx, List.countP_cons, ih]
    | some b => simp [List.filterMap_cons, hx, List.countP_cons, ih]

/-- C1 (amended): for every document with at least one surviving heading, at
least one of which yields non-empty cleaned content, the number of emitted
sections equals the number of surviving headings whose extracted cleaned
content is non-empty (headings whose content cleans to empty are dropped),
and the `page_number` fields of the emitted sections are non-decreasing in
emission order. -/
theorem sections_count_and_page_monotone (hs : List Heading)
    (pages : List String) (docName : String) (hne : hs ≠ [])
    (hsome : ∃ p ∈ withNext (sortHeadings hs),
      extractSectionContent pages p.1 p.2 ≠ "") :
    (extractSectionsWithContent hs pages docName).length =
        (withNext (sortHeadings hs)).countP
          (fun p => extractSectionContent pages p.1 p.2 != "") ∧
      List.Sorted (· ≤ ·)
        ((extractSectionsWithContent hs pages docName).map
          Section.page_number) := by
  have hsec : extractSectionsWithContent hs pages docName =
      headingSections pages docName (sortHeadings hs) := by
    unfold extractSectionsWithContent
    rw [if_neg hne]
    have hnil : headingSections pages docName (sortHeadings hs) ≠ [] := by
      intro h0
      rcases hsome with ⟨p, hp, hcp⟩
      have := List.filterMap_eq_nil_iff.mp h0 p hp
      simp only at this
      rw [if_neg hcp] at this
      exact Option.noConfusion this
    rw [if_neg hnil]
  rw [hsec]
  constructor
  · unfold headingSections
    rw [length_filterMap_eq_countP]
    refine List.countP_congr (fun p _ => ?_)
    by_cases hc : extractSectionContent pages p.1 p.2 = ""
    · simp [hc]
    · simp [hc]
  · have hsorted : List.Pairwise headingLe (sortHeadings hs) :=
      List.sorted_insertionSort headingLe hs
    have hpair : List.Pairwise (fun p q : Heading × Option Heading =>
        headingLe p.1 q.1) (withNext (sortHeadings hs)) := by
      have := hsorted
      rw [← withNext_map_fst (sortHeadings hs)] at this
      exact List.pairwise_map.mp this
    have hsecpair : List.Pairwise
        (fun s t : Section => s.page_number ≤ t.page_number)
        (headingSections pages docName (sortHeadings hs)) := by
      unfold headingSections
      refine List.Pairwise.filterMap _ ?_ hpair
      intro p q hpq s hs' t ht'
      have hps : s.page_number = p.1.page := by
        by_cases hc : extractSectionContent pages p.1 p.2 = ""
        · simp [hc] at hs'
        · simp [hc] at hs'
          rw [← hs']
          rfl
      have hqt : t.page_number = q.1.page := by
        by_cases hc : extractSectionContent pages q.1 q.2 = ""
        · simp [hc] at ht'
        · simp [hc] at ht'
          rw [← ht']
          rfl
      rw [hps, hqt]
      exact headingLe_page_le hpq
    exact List.pairwise_map.mpr hsecpair

/-- C1 (amended) witness: on the counterexample document, the section count
equals the count of headings with non-empty cleaned content (one of two),
and the emitted page numbers are non-decreasing. -/
theorem sections_count_and_page_monotone_witness :
    (extractSectionsWithContent c1Headings c1Pages "doc").length =
        (withNext (sortHeadings c1Headings)).countP
          (fun p => extractSectionContent c1Pages p.1 p.2 != "") ∧
      List.Sorted (· ≤ ·)
        ((extractSectionsWithContent c1Headings c1Pages "doc").map
          Section.page_number) :=
  sections_count_and_page_monotone c1Headings c1Pages "doc" (by decide)
    (by decide)

/-! ## C2: the content fingerprint of the deduplication loop -/

/-- First section of the C2 counterexample: its first 20 content words
repeat `alpha`. -/
def c2Section1 : Section :=
  ⟨"d", "one", 1,
    "alpha alpha beta gamma delta epsilon zeta eta theta iota kappa lambda",
    "H1", 1, 0, 1, 0, 0⟩

/-- Second section of the C2 counterexample: the same set of distinct
content words as `c2Section1`, but repeating `beta` instead of `alpha`. -/
def c2Section2 : Section :=
  ⟨"d", "two", 1,
    "alpha beta beta gamma delta epsilon zeta eta theta iota kappa lambda",
    "H1", 1, 0, 1, 0, 0⟩

/-- C2 counterexample: the fingerprint is computed from the first 20 content
words WITH multiplicity (`sorted(content_words[:20])`), not from the set of
the first 20 distinct words — two contents with the same set of first-20
distinct words get different fingerprints, and the second section is kept
rather than rejected. -/
theorem fingerprint_not_function_of_word_set :
    ((contentWords c2Section1).take 20).dedup =
        ((contentWords c2Section2).take 20).dedup ∧
      contentFingerprint c2Section1 ≠ contentFingerprint c2Section2 ∧
      filterAndDeduplicateSections [c2Section1, c2Section2] =
        [c2Section1, c2Section2] := by
  refine ⟨by decide, by decide, by decide⟩

/-- The fingerprint-distinctness property carried through the
deduplication fold. -/
theorem filterDedupGo_fingerprints (l : List Section) :
    ∀ seenT seenH,
      (∀ s ∈ filterDedupGo l seenT seenH,
        10 < (contentWords s).length → contentFingerprint s ∉ seenH) ∧
      List.Pairwise (fun s t =>
        10 < (contentWords s).length → 10 < (contentWords t).length →
          contentFingerprint s ≠ contentFingerprint t)
        (filterDedupGo l seenT seenH) := by
  induction l with
  | nil => intro seenT seenH; exact ⟨by simp [filterDedupGo], by simp [filterDedupGo]⟩
  | cons s rest ih =>
    intro seenT seenH
    by_cases hsim : seenT.any (fun st => titlesTooSimilar (dedupTitle s) st)
    · simpa [filterDedupGo, hsim] using ih seenT seenH
    · by_cases hcw : 10 < (contentWords s).length
      · by_cases hmem : contentFingerprint s ∈ seenH
        · simpa [filterDedupGo, hsim, hcw, hmem] using ih seenT seenH
        · have hgo : filterDedupGo (s :: rest) seenT seenH =
              s :: filterDedupGo rest (dedupTitle s :: seenT)
                (contentFingerprint s :: seenH) := by
            simp [filterDedupGo, hsim, hcw, hmem]
          rw [hgo]
          obtain ⟨ih1, ih2⟩ := ih (dedupTitle s :: seenT)
            (contentFingerprint s :: seenH)
          refine ⟨?_, ?_⟩
          · intro x hx hxcw
            rcases List.mem_cons.mp hx with rfl | hx
            · exact hmem
            · intro hxin
              exact (ih1 x hx hxcw) (List.mem_cons_of_mem _ hxin)
          · refine List.Pairwise.cons (fun t ht hscw htcw => ?_) ih2
            have := ih1 t ht htcw
            intro heq
            exact this (heq ▸ List.mem_cons_self _ _)
      · have hgo : filterDedupGo (s :: rest) seenT seenH =
            s :: filterDedupGo rest (dedupTitle s :: seenT) seenH := by
          simp [filterDedupGo, hsim, hcw]
        rw [hgo]
        obtain ⟨ih1, ih2⟩ := ih (dedupTitle s :: seenT) seenH
        refine ⟨?_, ?_⟩
        · intro x hx hxcw
          rcases List.mem_cons.mp hx with rfl | hx
          · exact absurd hxcw hcw
          · exact ih1 x hx hxcw
        · exact List.Pairwise.cons (fun t _ hscw _ => absurd hscw hcw) ih2

/-- C2 (amended): the content fingerprint is the space-join of the
lexicographically sorted FIRST 20 content words with multiplicity (not
deduplicated), computed only for sections with more than 10 content words; a
section whose fingerprint equals a previously kept section's is rejected, so
no two kept sections with more than 10 content words share a fingerprint. -/
theorem kept_sections_have_distinct_fingerprints (sections : List Section) :
    List.Pairwise (fun s t =>
      10 < (contentWords s).length → 10 < (contentWords t).length →
        contentFingerprint s ≠ contentFingerprint t)
      (filterAndDeduplicateSections sections) :=
  (filterDedupGo_fingerprints sections [] []).2

/-! ## C3: pairwise title dissimilarity of kept sections -/

/-- First section of the C3 counterexample: an empty title. -/
def c3Section1 : Section := ⟨"d", "", 1, "", "H1", 1, 0, 1, 0, 0⟩

/-- Second section of the C3 counterexample: also an empty title. -/
def c3Section2 : Section := ⟨"e", "", 1, "x", "H1", 1, 0, 1, 0, 0⟩

/-- C3 counterexample: `_titles_too_similar` declares empty titles never
similar (`if not title1 or not title2: return False`), so two distinct kept
sections can have equal (hence mutually substring) lowercased titles. -/
theorem kept_sections_with_equal_empty_titles :
    filterAndDeduplicateSections [c3Section1, c3Section2] =
        [c3Section1, c3Section2] ∧
      dedupTitle c3Section1 = dedupTitle c3Section2 ∧
      containsSub (dedupTitle c3Section2) (dedupTitle c3Section1) = true := by
  refine ⟨by decide, by decide, by decide⟩

/-- The title-dissimilarity property carried through the deduplication
fold. -/
theorem filterDedupGo_titles (l : List Section) :
    ∀ seenT seenH,
      (∀ t ∈ filterDedupGo l seenT seenH, ∀ st ∈ seenT,
        titlesTooSimilar (dedupTitle t) st = false) ∧
      List.Pairwise (fun s t =>
        titlesTooSimilar (dedupTitle t) (dedupTitle s) = false)
        (filterDedupGo l seenT seenH) := by
  induction l with
  | nil => intro seenT seenH; exact ⟨by simp [filterDedupGo], by simp [filterDedupGo]⟩
  | cons s rest ih =>
    intro seenT seenH
    by_cases hsim : seenT.any (fun st => titlesTooSimilar (dedupTitle s) st)
    · simpa [filterDedupGo, hsim] using ih seenT seenH
    · have hseen : ∀ st ∈ seenT, titlesTooSimilar (dedupTitle s) st = false := by
        intro st hst
        have := List.any_eq_false.mp (Bool.eq_false_iff.mpr hsim) st hst
        exact Bool.eq_false_iff.mpr this
      have step : ∀ tail, (∀ x ∈ tail, ∀ st ∈ dedupTitle s :: seenT,
            titlesTooSimilar (dedupTitle x) st = false) →
          List.Pairwise (fun a b =>
            titlesTooSimilar (dedupTitle b) (dedupTitle a) = false) tail →
          (∀ x ∈ s :: tail, ∀ st ∈ seenT,
            titlesTooSimilar (dedupTitle x) st = false) ∧
          List.Pairwise (fun a b =>
            titlesTooSimilar (dedupTitle b) (dedupTitle a) = false)
            (s :: tail) := by
        intro tail h1 h2
        refine ⟨?_, ?_⟩
        · intro x hx st hst
          rcases List.mem_cons.mp hx with rfl | hx
          · exact hseen st hst
          · exact h1 x hx st (List.mem_cons_of_mem _ hst)
        · exact List.Pairwise.cons
            (fun t ht => h1 t ht (dedupTitle s) (List.mem_cons_self _ _)) h2
      by_cases hcw : 10 < (contentWords s).length
      · by_cases hmem : contentFingerprint s ∈ seenH
        · simpa [filterDedupGo, hsim, hcw, hmem] using ih seenT seenH
        · have hgo : filterDedupGo (s :: rest) seenT seenH =
              s :: filterDedupGo rest (dedupTitle s :: seenT)
                (contentFingerprint s :: seenH) := by
            simp [filterDedupGo, hsim, hcw, hmem]
          rw [hgo]
          obtain ⟨ih1, ih2⟩ := ih (dedupTitle s :: seenT)
            (contentFingerprint s :: seenH)
          exact step _ ih1 ih2
      · have hgo : filterDedupGo (s :: rest) seenT seenH =
            s :: filterDedupGo rest (dedupTitle s :: seenT) seenH := by
          simp [filterDedupGo, hsim, hcw]
        rw [hgo]
        obtain ⟨ih1, ih2⟩ := ih (dedupTitle s :: seenT) seenH
        exact step _ ih1 ih2

/-- Unpacking `_titles_too_similar = False` for two non-empty titles: they
are distinct, neither contains the other, and (when both have words) the
word-overlap similarity is at most `0.7` (`similarity > 0.7` over word sets
is the exact integer comparison `10 * overlap > 7 * totalUnique`). -/
theorem titlesTooSimilar_eq_false_elim {t1 t2 : List Char}
    (h : titlesTooSimilar t1 t2 = false) (h1 : t1 ≠ []) (h2 : t2 ≠ []) :
    t1 ≠ t2 ∧ containsSub t2 t1 = false ∧ containsSub t1 t2 = false ∧
      ((pySplit t1).dedup ≠ [] → (pySplit t2).dedup ≠ [] →
        10 * (((pySplit t1).dedup.filter
            (fun w => w ∈ (pySplit t2).dedup)).length) ≤
          7 * ((pySplit t1 ++ pySplit t2).dedup.length)) := by
  unfold titlesTooSimilar at h
  rw [if_neg (by simp [h1, h2])] at h
  by_cases heq : t1 = t2
  · rw [if_pos heq] at h; exact absurd h (by simp)
  rw [if_neg heq] at h
  by_cases hsub : (containsSub t2 t1 || containsSub t1 t2) = true
  · rw [if_pos hsub] at h; exact absurd h (by simp)
  rw [if_neg hsub] at h
  have hsub' := Bool.eq_false_iff.mpr hsub
  rw [Bool.or_eq_false_iff] at hsub'
  refine ⟨heq, hsub'.1, hsub'.2, fun hw1 hw2 => ?_⟩
  rw [if_pos (by simp [hw1, hw2])] at h
  have := of_decide_eq_false h
  omega

/-- C3 (amended): after `filter_and_deduplicate_sections`, for every pair of
distinct kept sections whose lowercased stripped titles are both non-empty,
the titles are distinct, neither is a substring of the other, and the
Jaccard word-overlap of the title word sets is at most `0.7` (empty titles
are exempt: the code never compares them). -/
theorem kept_titles_pairwise_dissimilar (sections : List Section) :
    List.Pairwise (fun s t =>
      dedupTitle t ≠ [] → dedupTitle s ≠ [] →
        dedupTitle t ≠ dedupTitle s ∧
        containsSub (dedupTitle s) (dedupTitle t) = false ∧
        containsSub (dedupTitle t) (dedupTitle s) = false ∧
        ((pySplit (dedupTitle t)).dedup ≠ [] →
          (pySplit (dedupTitle s)).dedup ≠ [] →
          10 * (((pySplit (dedupTitle t)).dedup.filter
              (fun w => w ∈ (pySplit (dedupTitle s)).dedup)).length) ≤
            7 * ((pySplit (dedupTitle t) ++
              pySplit (dedupTitle s)).dedup.length)))
      (filterAndDeduplicateSections sections) := by
  have h := (filterDedupGo_titles sections [] []).2
  refine h.imp (fun {s t} hst ht hs => ?_)
  exact titlesTooSimilar_eq_false_elim hst ht hs

/-! ## C8: balancing keeps at most 5 sections per document, sorts by score,
reassigns dense ranks -/

/-- Ranks assigned by `assignRanksFrom i` are `i, i+1, ...`. -/
theorem assignRanksFrom_map_rank (l : List Section) :
    ∀ i, (assignRanksFrom i l).map Section.importance_rank =
      List.range' i l.length := by
  induction l with
  | nil => intro i; rfl
  | cons s t ih =>
    intro i
    simp [assignRanksFrom, List.range', ih]

/-- `assignRanksFrom` keeps every section's relevance score. -/
theorem assignRanksFrom_map_score (l : List Section) :
    ∀ i, (assignRanksFrom i l).map Section.relevance_score =
      l.map Section.relevance_score := by
  induction l with
  | nil => intro i; rfl
  | cons s t ih => intro i; simp [assignRanksFrom, ih]

/-- `assignRanksFrom` keeps every section's document. -/
theorem assignRanksFrom_map_document (l : List Section) :
    ∀ i, (assignRanksFrom i l).map Section.document =
      l.map Section.document := by
  induction l with
  | nil => intro i; rfl
  | cons s t ih => intro i; simp [assignRanksFrom, ih]

/-- `assignRanksFrom` keeps the length. -/
theorem assignRanksFrom_length (l : List Section) :
    ∀ i, (assignRanksFrom i l).length = l.length := by
  induction l with
  | nil => intro i; rfl
  | cons s t ih => intro i; simp [assignRanksFrom, ih]

/-- `scoreGe`-sortedness only depends on the mapped scores. -/
theorem pairwise_scoreGe_iff (l : List Section) :
    List.Pairwise scoreGe l ↔
      List.Pairwise (fun a b : ℚ => b ≤ a)
        (l.map Section.relevance_score) := by
  rw [List.pairwise_map]
  rfl

/-- `groupInsert` keys: unchanged when the key exists, appended otherwise. -/
theorem groupInsert_map_fst {κ α : Type} [DecidableEq κ] (k : κ) (x : α) :
    ∀ acc : List (κ × List α),
      (groupInsert k x acc).map Prod.fst =
        if k ∈ acc.map Prod.fst then acc.map Prod.fst
        else acc.map Prod.fst ++ [k] := by
  intro acc
  induction acc with
  | nil => simp [groupInsert]
  | cons g rest ih =>
    obtain ⟨k1, l1⟩ := g
    by_cases hk : k1 = k
    · simp [groupInsert, hk]
    · simp only [groupInsert, if_neg hk, List.map_cons, ih]
      by_cases hmem : k ∈ rest.map Prod.fst
      · rw [if_pos hmem, if_pos (List.mem_cons_of_mem _ hmem)]
      · have hnk : k ∉ k1 :: rest.map Prod.fst := by
          simp only [List.mem_cons]
          rintro (h | h)
          · exact hk h.symm
          · exact hmem h
        rw [if_neg hmem, if_neg hnk]
        simp

/-- `groupInsert` preserves the member-key coherence invariant. -/
theorem groupInsert_members {κ α : Type} [DecidableEq κ] (key : α → κ)
    (k : κ) (x : α) (hx : key x = k) :
    ∀ acc : List (κ × List α),
      (∀ g ∈ acc, ∀ y ∈ g.2, key y = g.1) →
      ∀ g ∈ groupInsert k x acc, ∀ y ∈ g.2, key y = g.1 := by
  intro acc
  induction acc with
  | nil =>
    intro _ g hg y hy
    simp [groupInsert] at hg
    subst hg
    simp at hy
    subst hy
    exact hx
  | cons g0 rest ih =>
    intro hinv g hg y hy
    by_cases hk : g0.1 = k
    · simp only [groupInsert, if_pos hk] at hg
      rcases List.mem_cons.mp hg with rfl | hg
      · rcases List.mem_append.mp hy with hy | hy
        · exact hinv g0 (List.mem_cons_self _ _) y hy
        · simp at hy
          subst hy
          exact hx.trans hk.symm
      · exact hinv g (List.mem_cons_of_mem _ hg) y hy
    · simp only [groupInsert, if_neg hk] at hg
      rcases List.mem_cons.mp hg with rfl | hg
      · exact hinv g0 (List.mem_cons_self _ _) y hy
      · exact ih (fun g' hg' => hinv g' (List.mem_cons_of_mem _ hg')) g hg y hy

/-- `groupInsert` preserves distinctness of the keys. -/
theorem groupInsert_nodup {κ α : Type} [DecidableEq κ] (k : κ) (x : α)
    (acc : List (κ × List α)) (h : (acc.map Prod.fst).Nodup) :
    ((groupInsert k x acc).map Prod.fst).Nodup := by
  rw [groupInsert_map_fst]
  by_cases hmem : k ∈ acc.map Prod.fst
  · rw [if_pos hmem]; exact h
  · rw [if_neg hmem]
    rw [← List.concat_eq_append]
    exact h.concat hmem

/-- The grouping fold keeps member-key coherence and key distinctness. -/
theorem groupByKey_fold_inv {κ α : Type} [DecidableEq κ] (key : α → κ)
    (l : List α) :
    ∀ acc : List (κ × List α),
      (∀ g ∈ acc, ∀ y ∈ g.2, key y = g.1) → (acc.map Prod.fst).Nodup →
      (∀ g ∈ l.foldl (fun a x => groupInsert (key x) x a) acc,
        ∀ y ∈ g.2, key y = g.1) ∧
      ((l.foldl (fun a x => groupInsert (key x) x a) acc).map Prod.fst).Nodup := by
  induction l with
  | nil => intro acc h1 h2; exact ⟨h1, h2⟩
  | cons x rest ih =>
    intro acc h1 h2
    exact ih (groupInsert (key x) x acc)
      (groupInsert_members key (key x) x rfl acc h1)
      (groupInsert_nodup (key x) x acc h2)

/-- Members of every `groupByKey` group carry the group's key. -/
theorem groupByKey_members {κ α : Type} [DecidableEq κ] (key : α → κ)
    (l : List α) :
    ∀ g ∈ groupByKey key l, ∀ y ∈ g.2, key y = g.1 :=
  (groupByKey_fold_inv key l [] (by simp) (by simp)).1

/-- The keys of `groupByKey` are pairwise distinct. -/
theorem groupByKey_keys_nodup {κ α : Type} [DecidableEq κ] (key : α → κ)
    (l : List α) : ((groupByKey key l).map Prod.fst).Nodup :=
  (groupByKey_fold_inv key l [] (by simp) (by simp)).2

/-- `countP` over `flatMap` is the sum of the per-piece counts. -/
theorem countP_flatMap {α β : Type} (p : β → Bool) (f : α → List β) :
    ∀ l : List α,
      (l.flatMap f).countP p = (l.map (fun x => (f x).countP p)).sum := by
  intro l
  induction l with
  | nil => rfl
  | cons x rest ih => simp [List.flatMap_cons, List.countP_append, ih]

/-- Count of sections of document `d` among the top `m` of one group:
at most `m` for the group keyed `d`, zero for every other group. -/
theorem countP_take_sort_le (d : String) (m : Nat)
    (g : String × List Section) (hmem : ∀ x ∈ g.2, x.document = g.1) :
    ((List.insertionSort scoreGe g.2).take m).countP
        (fun s => s.document == d) ≤ if g.1 = d then m else 0 := by
  by_cases hk : g.1 = d
  · rw [if_pos hk]
    refine le_trans (List.countP_le_length _) ?_
    rw [List.length_take]
    exact min_le_left _ _
  · rw [if_neg hk]
    rw [Nat.le_zero, List.countP_eq_zero]
    intro s hsmem
    have hs2 : s ∈ g.2 := (List.perm_insertionSort scoreGe g.2).mem_iff.mp
      (List.mem_of_mem_take hsmem)
    simp only [beq_iff_eq]
    rw [hmem s hs2]
    exact hk

/-- Summed over groups with distinct keys, the per-document count of the
balanced selection is at most `m`. -/
theorem countP_balanced_le (d : String) (m : Nat) :
    ∀ groups : List (String × List Section),
      (∀ g ∈ groups, ∀ y ∈ g.2, y.document = g.1) →
      (groups.map Prod.fst).Nodup →
      (groups.flatMap (fun g =>
        (List.insertionSort scoreGe g.2).take m)).countP
          (fun s => s.document == d) ≤ m := by
  intro groups
  induction groups with
  | nil => intro _ _; simp
  | cons g rest ih =>
    intro hinv hnodup
    rw [List.flatMap_cons, List.countP_append]
    by_cases hk : g.1 = d
    · have hhead := countP_take_sort_le d m g
        (hinv g (List.mem_cons_self _ _))
      rw [if_pos hk] at hhead
      have hrest : (rest.flatMap (fun g =>
          (List.insertionSort scoreGe g.2).take m)).countP
            (fun s => s.document == d) = 0 := by
        rw [List.countP_eq_zero]
        intro s hsmem
        rcases List.mem_flatMap.mp hsmem with ⟨g', hg', hs'⟩
        have hs2 : s ∈ g'.2 :=
          (List.perm_insertionSort scoreGe g'.2).mem_iff.mp
            (List.mem_of_mem_take hs')
        have hdoc := hinv g' (List.mem_cons_of_mem _ hg') s hs2
        have hne : g'.1 ≠ d := by
          intro hEq
          have hgmem : g'.1 ∈ rest.map Prod.fst :=
            List.mem_map.mpr ⟨g', hg', rfl⟩
          have := (List.nodup_cons.mp hnodup).1
          rw [hEq, ← hk] at hgmem
          exact this hgmem
        simp only [beq_iff_eq]
        rw [hdoc]
        exact hne
      omega
    · have hhead := countP_take_sort_le d m g
        (hinv g (List.mem_cons_self _ _))
      rw [if_neg hk] at hhead
      have hrest := ih (fun g' hg' => hinv g' (List.mem_cons_of_mem _ hg'))
        (List.nodup_cons.mp hnodup).2
      omega

/-- `countP` on a document predicate is unchanged by rank reassignment. -/
theorem countP_assignRanks (l : List Section) (d : String) (i : Nat) :
    (assignRanksFrom i l).countP (fun s => s.document == d) =
      l.countP (fun s => s.document == d) := by
  induction l generalizing i with
  | nil => rfl
  | cons s t ih => simp [assignRanksFrom, List.countP_cons, ih]

/-- C8: after `balance_section_distribution` with the default limit 5, every
source document retains at most 5 sections, the surviving sections are
sorted by relevance score descending, and `importance_rank` is reassigned as
the dense 1-based consecutive integers `1, 2, ..., n` in that order. -/
theorem balance_bounds_sorts_and_ranks (sections : List Section)
    (d : String) :
    (balanceSectionDistribution 5 sections).countP
        (fun s => s.document == d) ≤ 5 ∧
      List.Pairwise scoreGe (balanceSectionDistribution 5 sections) ∧
      (balanceSectionDistribution 5 sections).map Section.importance_rank =
        List.range' 1 (balanceSectionDistribution 5 sections).length := by
  by_cases hnil : sections = []
  · subst hnil
    refine ⟨by simp [balanceSectionDistribution], ?_, ?_⟩
    · simp [balanceSectionDistribution]
    · simp [balanceSectionDistribution]
  · have hdef : balanceSectionDistribution 5 sections =
        assignRanksFrom 1 (List.insertionSort scoreGe
          ((groupByKey (fun s => s.document) sections).flatMap (fun g =>
            (List.insertionSort scoreGe g.2).take 5))) := by
      simp [balanceSectionDistribution, hnil]
    refine ⟨?_, ?_, ?_⟩
    · rw [hdef, countP_assignRanks]
      rw [(List.perm_insertionSort scoreGe _).countP_eq]
      exact countP_balanced_le d 5 _
        (groupByKey_members _ sections) (groupByKey_keys_nodup _ sections)
    · rw [hdef, pairwise_scoreGe_iff, assignRanksFrom_map_score,
        ← pairwise_scoreGe_iff]
      exact List.sorted_insertionSort scoreGe _
    · rw [hdef, assignRanksFrom_map_rank, assignRanksFrom_length]

/-! ## C5: relevance scores lie in `[0, 1]` -/

/-- The keyword-match total is a sum of non-negative contributions. -/
theorem keywordMatchTotal_nonneg (textLower : List Char)
    (textWords : List (List Char)) (keywords : List String) :
    0 ≤ keywordMatchTotal textLower textWords keywords := by
  refine List.sum_nonneg (fun x hx => ?_)
  rcases List.mem_map.mp hx with ⟨kw, _, rfl⟩
  positivity

/-- The keyword similarity component lies in `[0, 1]`. -/
theorem keyword_similarity_bounds (text : String) (keywords : List String) :
    0 ≤ calculateKeywordSimilarity text keywords ∧
      calculateKeywordSimilarity text keywords ≤ 1 := by
  simp only [calculateKeywordSimilarity]
  split_ifs with h1 h2
  · exact ⟨le_refl 0, by norm_num⟩
  · exact ⟨le_refl 0, by norm_num⟩
  · constructor
    · refine le_min ?_ (by norm_num)
      refine mul_nonneg
        (div_nonneg (keywordMatchTotal_nonneg _ _ _) (by positivity))
        (div_nonneg (keywordMatchTotal_nonneg _ _ _) (by positivity))
    · exact min_le_right _ _

/-- The structural importance component lies in `[0, 1]`. -/
theorem section_importance_bounds (sectionText title : String) :
    0 ≤ calculateSectionImportance sectionText title ∧
      calculateSectionImportance sectionText title ≤ 1 := by
  unfold calculateSectionImportance
  constructor
  · refine le_min ?_ (by norm_num)
    have hnn : ∀ (c : Prop) (inst : Decidable c) (a b : ℚ),
        0 ≤ a → 0 ≤ b → 0 ≤ (if c then a else b) := by
      intro c inst a b ha hb
      split_ifs <;> assumption
    refine add_nonneg (add_nonneg ?_ ?_) ?_
    · refine hnn _ _ _ _ (by norm_num) ?_
      refine hnn _ _ _ _ (by norm_num) ?_
      exact hnn _ _ _ _ (by norm_num) (le_refl 0)
    · exact hnn _ _ _ _ (by norm_num) (le_refl 0)
    · refine add_nonneg (add_nonneg (add_nonneg (add_nonneg (add_nonneg
        (hnn _ _ _ _ (by norm_num) (le_refl 0))
        (hnn _ _ _ _ (by norm_num) (le_refl 0)))
        (hnn _ _ _ _ (by norm_num) (le_refl 0)))
        (hnn _ _ _ _ (by norm_num) (le_refl 0)))
        (hnn _ _ _ _ (by norm_num) (le_refl 0)))
        (hnn _ _ _ _ (by norm_num) (le_refl 0))
  · exact min_le_right _ _

/-- C5: for every section and every persona/job keyword set, each scoring
component (persona similarity, job similarity, structural importance) lies
in `[0, 1]`, and the final relevance score — the `0.4/0.4/0.2` weighted sum
followed by the multiplicative boosts and the final clamp — is never
negative and never exceeds 1. -/
theorem relevance_score_bounds (personaKeywords jobKeywords : List String)
    (originalJob : String) (s : Section) :
    (0 ≤ calculateKeywordSimilarity (s.content ++ " " ++ s.section_title)
        personaKeywords ∧
      calculateKeywordSimilarity (s.content ++ " " ++ s.section_title)
        personaKeywords ≤ 1) ∧
    (0 ≤ calculateKeywordSimilarity (s.content ++ " " ++ s.section_title)
        jobKeywords ∧
      calculateKeywordSimilarity (s.content ++ " " ++ s.section_title)
        jobKeywords ≤ 1) ∧
    (0 ≤ calculateSectionImportance s.content s.section_title ∧
      calculateSectionImportance s.content s.section_title ≤ 1) ∧
    0 ≤ scoreSectionRelevance personaKeywords jobKeywords originalJob s ∧
      scoreSectionRelevance personaKeywords jobKeywords originalJob s ≤ 1 := by
  obtain ⟨hp0, hp1⟩ := keyword_similarity_bounds
    (s.content ++ " " ++ s.section_title) personaKeywords
  obtain ⟨hj0, hj1⟩ := keyword_similarity_bounds
    (s.content ++ " " ++ s.section_title) jobKeywords
  obtain ⟨hi0, hi1⟩ := section_importance_bounds s.content s.section_title
  refine ⟨⟨hp0, hp1⟩, ⟨hj0, hj1⟩, ⟨hi0, hi1⟩, ?_, ?_⟩
  · unfold scoreSectionRelevance
    refine le_min ?_ (by norm_num)
    have hbase : (0 : ℚ) ≤
        calculateKeywordSimilarity (s.content ++ " " ++ s.section_title)
            personaKeywords * (2/5) +
          calculateKeywordSimilarity (s.content ++ " " ++ s.section_title)
            jobKeywords * (2/5) +
          calculateSectionImportance s.content s.section_title * (1/5) := by
      linarith
    split_ifs <;> linarith
  · unfold scoreSectionRelevance
    exact min_le_right _ _

/-! ## C10: `calculate_keyword_similarity` is total and its divisions are
guarded -/

/-- C10: `calculate_keyword_similarity` returns exactly `0.0` for an empty
keyword list, an empty text, or a text with no word tokens, so the divisions
by the text token count and by the keyword count are only performed when
both divisors are positive. -/
theorem keyword_similarity_total_guarded :
    (∀ t : String, calculateKeywordSimilarity t [] = 0) ∧
      (∀ kws : List String, calculateKeywordSimilarity "" kws = 0) ∧
      (∀ (t : String) (kws : List String), wordRuns (lowerL t.data) = [] →
        calculateKeywordSimilarity t kws = 0) ∧
      (∀ (t : String) (kws : List String), kws ≠ [] → t ≠ "" →
        wordRuns (lowerL t.data) ≠ [] →
        0 < (wordRuns (lowerL t.data)).length ∧ 0 < kws.length) := by
  refine ⟨?_, ?_, ?_, ?_⟩
  · intro t
    unfold calculateKeywordSimilarity
    rw [if_pos (Or.inl rfl)]
  · intro kws
    unfold calculateKeywordSimilarity
    rw [if_pos (Or.inr rfl)]
  · intro t kws hw
    simp only [calculateKeywordSimilarity, hw]
    split_ifs with h1
    · rfl
    · rfl
  · intro t kws hk ht hw
    exact ⟨List.length_pos.mpr hw, List.length_pos.mpr hk⟩

/-- C10 witness: the three guards at concrete inputs (empty keywords, empty
text, text with no word tokens), and positive divisors on a concrete
non-degenerate input. -/
theorem keyword_similarity_total_guarded_witness :
    calculateKeywordSimilarity "hello" [] = 0 ∧
      calculateKeywordSimilarity "" ["x"] = 0 ∧
      calculateKeywordSimilarity "?!" ["x"] = 0 ∧
      (0 < (wordRuns (lowerL "ab cd".data)).length ∧
        0 < (["x"] : List String).length) :=
  ⟨keyword_similarity_total_guarded.1 "hello",
    keyword_similarity_total_guarded.2.1 ["x"],
    keyword_similarity_total_guarded.2.2.1 "?!" ["x"] (by decide),
    keyword_similarity_total_guarded.2.2.2 "ab cd" ["x"] (by decide)
      (by decide) (by decide)⟩

/-! ## C6: the over-filtering fallback of `refine_section_text` -/

/-- C6: when the sentence-filtered text is shorter than 30% of the original
content's character length (more than 70% removed), `refine_section_text`
discards the filtered text and returns the original content truncated to its
first 1000 characters with an appended `'...'` when the content exceeds 1000
characters, and the whole original content otherwise. -/
theorem refine_overfiltered_falls_back (s : Section) (domain : String)
    (h : 10 * (refinedJoined s.content domain).length <
      3 * s.content.data.length) :
    refineSectionText s domain =
      if 1000 < s.content.data.length then
        String.mk (s.content.data.take 1000 ++ "...".data)
      else s.content := by
  unfold refineSectionText
  by_cases hc : s.content = ""
  · rw [hc] at h
    simp at h
  · rw [if_neg hc]
    simp only
    rw [if_pos h]

/-- The 1200-character content of the C6 witness: every sentence is shorter
than 20 characters, so sentence filtering keeps nothing (less than 30% of
the characters) and the content exceeds 1000 characters. -/
def c6Content : String :=
  String.mk (List.flatten (List.replicate 75 "abcdefghijklmn. ".data))

/-- The section of the C6 witness. -/
def c6Section : Section := ⟨"d", "t", 1, c6Content, "H1", 1, 0, 1, 0, 0⟩

/-- C6 witness: a section of more than 1000 characters whose filtering keeps
fewer than 30% of the characters falls back to the first 1000 original
characters plus an ellipsis. -/
theorem refine_overfiltered_falls_back_witness :
    c6Section.content.data.length = 1200 ∧
      10 * (refinedJoined c6Section.content "academic").length <
        3 * c6Section.content.data.length ∧
      refineSectionText c6Section "academic" =
        if 1000 < c6Section.content.data.length then
          String.mk (c6Section.content.data.take 1000 ++ "...".data)
        else c6Section.content :=
  ⟨by decide, by decide,
    refine_overfiltered_falls_back c6Section "academic" (by decide)⟩

/-! ## C7: every outline heading has confidence at least 7 -/

/-- The deduplication fold keeps a sublist of its input candidates. -/
theorem removeDupHeadingsGo_subset :
    ∀ (l : List (EBlock × Int)) (seen : List (List Char)),
      ∀ p ∈ removeDupHeadingsGo l seen, p ∈ l := by
  intro l
  induction l with
  | nil => intro seen p hp; simp [removeDupHeadingsGo] at hp
  | cons q rest ih =>
    intro seen p hp
    simp only [removeDupHeadingsGo] at hp
    split_ifs at hp with h1 h2
    · exact List.mem_cons_of_mem _ (ih seen p hp)
    · exact List.mem_cons_of_mem _ (ih seen p hp)
    · rcases List.mem_cons.mp hp with rfl | hp
      · exact List.mem_cons_self _ _
      · exact List.mem_cons_of_mem _ (ih _ p hp)

/-- Membership through `groupInsert`, flattened. -/
theorem mem_groupInsert_flatMap {κ α : Type} [DecidableEq κ] (k : κ) (a : α)
    (x : α) :
    ∀ acc : List (κ × List α),
      (x ∈ (groupInsert k a acc).flatMap Prod.snd ↔
        x ∈ acc.flatMap Prod.snd ∨ x = a) := by
  intro acc
  induction acc with
  | nil => simp [groupInsert]
  | cons g rest ih =>
    obtain ⟨k1, l1⟩ := g
    by_cases hk : k1 = k
    · simp only [groupInsert, if_pos hk, List.flatMap_cons, List.mem_append,
        List.mem_singleton]
      tauto
    · simp only [groupInsert, if_neg hk, List.flatMap_cons, List.mem_append,
        ih]
      tauto

/-- Membership through the grouping fold, flattened. -/
theorem mem_groupByKey_flatMap {κ α : Type} [DecidableEq κ] (key : α → κ)
    (l : List α) (x : α) :
    x ∈ (groupByKey key l).flatMap Prod.snd → x ∈ l := by
  suffices h : ∀ acc : List (κ × List α),
      x ∈ (l.foldl (fun a y => groupInsert (key y) y a) acc).flatMap
        Prod.snd → x ∈ acc.flatMap Prod.snd ∨ x ∈ l by
    intro hx
    rcases h [] hx with h0 | h0
    · simp at h0
    · exact h0
  induction l with
  | nil =>
    intro acc hx
    exact Or.inl hx
  | cons y rest ih =>
    intro acc hx
    rcases ih (groupInsert (key y) y acc) hx with h0 | h0
    · rcases (mem_groupInsert_flatMap (key y) y x acc).mp h0 with h1 | h1
      · exact Or.inl h1
      · exact Or.inr (by simp [h1])
    · exact Or.inr (List.mem_cons_of_mem _ h0)

/-- Every outline entry of `assignHeadingLevels` carries the confidence of
one of the candidates. -/
theorem mem_assignHeadingLevels {e : OutlineEntry}
    {cands : List (EBlock × Int)} (he : e ∈ assignHeadingLevels cands) :
    ∃ p ∈ cands, e.confidence = p.2 := by
  unfold assignHeadingLevels at he
  split_ifs at he with hc
  · simp at he
  · simp only at he
    rcases List.mem_map.mp he with ⟨p, hp, rfl⟩
    refine ⟨p, ?_, rfl⟩
    have h1 := (List.perm_insertionSort pagePosLe _).mem_iff.mp hp
    exact mem_groupByKey_flatMap _ _ _ h1

/-- Phase B candidates all have confidence at least 7. -/
theorem candidate_confidence_ge (blocks : List EBlock) :
    ∀ p ∈ blocks.filterMap (fun b =>
      if 7 ≤ computeConfidence b ∧ finalHeadingValidation b then
        some (b, computeConfidence b)
      else none), 7 ≤ p.2 := by
  intro p hp
  rcases List.mem_filterMap.mp hp with ⟨b, _, hfb⟩
  split_ifs at hfb with hcond
  cases hfb
  exact hcond.1

/-- C7: every heading appearing in the final outline produced by
`strict_heading_detection` has confidence at least 7 — no block whose
computed confidence is below 7 is ever emitted as an outline entry. -/
theorem outline_confidence_at_least_seven (blocks : List EBlock) :
    ∀ e ∈ (strictHeadingDetection blocks).2, 7 ≤ e.confidence := by
  intro e he
  unfold strictHeadingDetection at he
  split_ifs at he with hb
  · simp at he
  · simp only at he
    rcases mem_assignHeadingLevels he with ⟨p, hp, hpe⟩
    have h1 := removeDupHeadingsGo_subset _ [] p hp
    have h2 := (List.perm_insertionSort candidateLe _).mem_iff.mp h1
    rw [hpe]
    exact candidate_confidence_ge blocks p h2

/-- The single block of the C7 witness: a large standalone `"Introduction"`
block. -/
def c7Block : EBlock :=
  ⟨"Introduction", "Arial", 18, 1, 100, false, false, true, true, false,
    false, false, false, false, 1, 0, Rat.divInt 3 2⟩

/-- C7 witness: the block is emitted as an outline entry (with confidence
15), and the theorem yields that its confidence is at least 7. -/
theorem outline_confidence_at_least_seven_witness :
    (⟨"H1", "Introduction", 1, 15, 18, "Arial", false, 1⟩ : OutlineEntry) ∈
        (strictHeadingDetection [c7Block]).2 ∧
      7 ≤ (⟨"H1", "Introduction", 1, 15, 18, "Arial", false,
        1⟩ : OutlineEntry).confidence :=
  ⟨by decide, outline_confidence_at_least_seven [c7Block] _ (by decide)⟩

end Round1B
